import Mathlib

/-!
A verification development for the unstructured dual-mesh construction and
topology-maintenance engine of `landlab/graph/voronoi/voronoi_to_graph.py`.

The xarray Dataset of `VoronoiDelaunay` / `VoronoiDelaunayToGraph` is embedded
as a record of integer id tables.  Operations that numpy performs in place are
embedded as pure functions on that record; a call that would raise an
`IndexError` is embedded as `none`.  Helpers that live in compiled extension
modules of the repository (outside the python sources available here) are
modelled from the specification and marked as such in their doc comments.
-/

namespace Landlab

/-- Element kinds of the dual mesh, the `at` argument of `drop_element`. -/
inductive Kind where
  | node
  | link
  | patch
  | corner
  | face
  | cell
deriving DecidableEq, Repr

/-- The table set of the xarray Dataset built by `VoronoiDelaunay.__init__` and
extended by `VoronoiDelaunayToGraph.__init__`.  Coordinates are carried as
integers: no arithmetic is ever performed on them, they are only filtered and
reindexed.  `node` and `corner` are the dimension index arrays
(`np.arange(...)`) that the Dataset keeps for the two kinds that own
coordinates.  `perimeter_links` is the optional caller-supplied override. -/
structure Mesh where
  x_of_node : List Int
  y_of_node : List Int
  x_of_corner : List Int
  y_of_corner : List Int
  node : List Int
  corner : List Int
  nodes_at_link : List (List Int)
  nodes_at_patch : List (List Int)
  corners_at_face : List (List Int)
  corners_at_cell : List (List Int)
  n_corners_at_cell : List Int
  nodes_at_face : List (List Int)
  cell_at_node : List Int
  links_at_patch : List (List Int)
  node_at_cell : List Int
  faces_at_cell : List (List Int)
  perimeter_links : Option (List (List Int))
deriving DecidableEq, Repr

/-- `self._mesh.dims[at]`: the size of the dimension named by the kind. -/
def Mesh.dim (m : Mesh) : Kind → Nat
  | .node => m.node.length
  | .link => m.nodes_at_link.length
  | .patch => m.nodes_at_patch.length
  | .corner => m.corner.length
  | .face => m.corners_at_face.length
  | .cell => m.corners_at_cell.length

/-- `np.arange n` as a list of integers. -/
def rangeInt (n : Nat) : List Int := (List.range n).map (fun (i : Nat) => (i : Int))

/-- Ascending sort, `dropped_ids.sort()` of `drop_element`. -/
def sortAsc (xs : List Int) : List Int := List.insertionSort (fun a b => a ≤ b) xs

/-- NumPy index resolution for an array of length `n`: indices in `[0, n)` are
taken as given, indices in `[-n, 0)` wrap around, anything else raises. -/
def resolveIndex (n : Nat) (i : Int) : Option Nat :=
  if 0 ≤ i ∧ i < (n : Int) then some i.toNat
  else if -(n : Int) ≤ i ∧ i < 0 then some (i + n).toNat
  else none

/-- The fancy-indexed assignment `is_a_keeper[dropped_ids] = False`, one index
at a time; an unresolvable index raises (`none`). -/
def setFalses (n : Nat) (keep : List Bool) : List Int → Option (List Bool)
  | [] => some keep
  | i :: is =>
    match resolveIndex n i with
    | none => none
    | some j => setFalses n (keep.set j false) is

/-- `is_a_keeper = np.full(dims[at], True); is_a_keeper[dropped_ids] = False`. -/
def mkKeeper (n : Nat) (ids : List Int) : Option (List Bool) :=
  setFalses n (List.replicate n true) ids

/-- NumPy boolean-mask selection `xs[keep]` along the first axis. -/
def maskFilter {α : Type} (keep : List Bool) (xs : List α) : List α :=
  match keep, xs with
  | k :: ks, x :: rest => if k then x :: maskFilter ks rest else maskFilter ks rest
  | _, _ => []

/-- The in-place rewrite of one entry of a `kind`-valued table in
`drop_element`: `array[np.in1d(array, dropped_ids)] = -1`, then one pass
`array[array > id_] -= 1` per dropped id, in ascending order. -/
def remapEntry (dropped : List Int) (v : Int) : Int :=
  let v0 := if v ∈ dropped then -1 else v
  dropped.foldl (fun w d => if d < w then w - 1 else w) v0

/-- Entry rewrite applied to a whole two-dimensional table. -/
def remapTable (dropped : List Int) (t : List (List Int)) : List (List Int) :=
  t.map (List.map (remapEntry dropped))

/-- Entry rewrite applied to a one-dimensional table. -/
def remapCol (dropped : List Int) (t : List Int) : List Int :=
  t.map (remapEntry dropped)

/-- `VoronoiDelaunayToGraph.drop_element(ids, at)`.  The tables filtered along
the dropped axis are those whose name the source matches with the suffix
pattern `at_{at}$`; the tables whose entries are rewritten are those matched by
the id-valued pattern `^{at}(e?s)?_at_`; kinds that own coordinates (`node`,
`corner`) additionally have their coordinate arrays filtered and their index
array rebuilt as `np.arange`.  An out-of-range id raises, embedded as `none`. -/
def drop_element (m : Mesh) (ids : List Int) (at_ : Kind) : Option Mesh :=
  let dropped := sortAsc ids
  match mkKeeper (m.dim at_) dropped with
  | none => none
  | some keep =>
    some (match at_ with
      | .node =>
        { m with
          x_of_node := maskFilter keep m.x_of_node
          y_of_node := maskFilter keep m.y_of_node
          node := rangeInt (maskFilter keep m.x_of_node).length
          cell_at_node := maskFilter keep m.cell_at_node
          nodes_at_link := remapTable dropped m.nodes_at_link
          nodes_at_patch := remapTable dropped m.nodes_at_patch
          nodes_at_face := remapTable dropped m.nodes_at_face
          node_at_cell := remapCol dropped m.node_at_cell }
      | .link =>
        { m with
          nodes_at_link := maskFilter keep m.nodes_at_link
          links_at_patch := remapTable dropped m.links_at_patch }
      | .patch =>
        { m with
          nodes_at_patch := maskFilter keep m.nodes_at_patch
          links_at_patch := maskFilter keep m.links_at_patch }
      | .corner =>
        { m with
          x_of_corner := maskFilter keep m.x_of_corner
          y_of_corner := maskFilter keep m.y_of_corner
          corner := rangeInt (maskFilter keep m.x_of_corner).length
          corners_at_face := remapTable dropped m.corners_at_face
          corners_at_cell := remapTable dropped m.corners_at_cell }
      | .face =>
        { m with
          corners_at_face := maskFilter keep m.corners_at_face
          nodes_at_face := maskFilter keep m.nodes_at_face
          faces_at_cell := remapTable dropped m.faces_at_cell }
      | .cell =>
        { m with
          corners_at_cell := maskFilter keep m.corners_at_cell
          n_corners_at_cell := maskFilter keep m.n_corners_at_cell
          faces_at_cell := maskFilter keep m.faces_at_cell
          node_at_cell := maskFilter keep m.node_at_cell
          cell_at_node := remapCol dropped m.cell_at_node })

/-- `is_perimeter_face`: `np.any(corners_at_face == -1, axis=1)`. -/
def is_perimeter_face (m : Mesh) : List Bool :=
  m.corners_at_face.map (fun row => row.any (fun v => v == -1))

/-- Modelled from the spec: `pair_isin` of the compiled module
`landlab.graph.sort.intpair`, which is not among the available python sources.
Per the spec it is a membership test of each node pair of the second argument
against the pair set of the first, in either orientation. -/
def pair_isin (src : List (List Int)) (pairs : List (List Int)) : List Bool :=
  pairs.map (fun p => src.any (fun q => p == q || p == q.reverse))

/-- `is_perimeter_link`: the explicit `perimeter_links` override takes
precedence when supplied, otherwise the geometric proxy `is_perimeter_face`. -/
def is_perimeter_link (m : Mesh) : List Bool :=
  match m.perimeter_links with
  | some pl => pair_isin pl m.nodes_at_link
  | none => is_perimeter_face m

/-- Modelled from the spec: one row of `id_array_contains` of the compiled
module `landlab.graph.voronoi.ext.voronoi`, which is not among the available
python sources.  It scans the first `n` entries of the row for `value`. -/
def rowContains (row : List Int) (n : Int) (value : Int) : Bool :=
  match row with
  | [] => false
  | x :: xs => if n ≤ 0 then false else (x == value) || rowContains xs (n - 1) value

/-- Modelled from the spec: `id_array_contains(rows, ns, value, out)`, with
`out` returned instead of written in place. -/
def id_array_contains (rows : List (List Int)) (ns : List Int) (value : Int) : List Bool :=
  List.zipWith (fun row n => rowContains row n value) rows ns

/-- `is_perimeter_cell`: the live code path, `id_array_contains` on the first
`n_corners_at_cell` corners of each cell followed by
`is_perimeter_cell |= n_corners_at_cell < 3`. -/
def is_perimeter_cell (m : Mesh) : List Bool :=
  List.zipWith (fun a b => a || b)
    (id_array_contains m.corners_at_cell m.n_corners_at_cell (-1))
    (m.n_corners_at_cell.map (fun n => decide (n < 3)))

/-- The face-selection mask of `unbound_corners`:
`is_perimeter_face() & ~is_perimeter_link()`. -/
def dropMask (m : Mesh) : List Bool :=
  List.zipWith (fun a b => a && !b) (is_perimeter_face m) (is_perimeter_link m)

/-- Strictly sorted duplicate-free insertion, the building block used to embed
`np.unique`. -/
def insertUnique (x : Int) : List Int → List Int
  | [] => [x]
  | y :: ys => if x < y then x :: y :: ys else if x = y then y :: ys else y :: insertUnique x ys

/-- `np.unique`: the sorted duplicate-free list of the input values. -/
def uniqueSorted (xs : List Int) : List Int := xs.foldr insertUnique []

/-- `unbound_corners`: the corner entries of the faces selected by `dropMask`,
restricted to non-negative values, deduplicated and sorted. -/
def unbound_corners (m : Mesh) : List Int :=
  uniqueSorted
    (((maskFilter (dropMask m) m.corners_at_face).flatten).filter (fun v => decide (0 ≤ v)))

/-- `np.where(mask)[0]`: the ascending indices at which the mask holds. -/
def whereTrue (mask : List Bool) : List Int :=
  (List.range mask.length).filterMap
    (fun i => if mask.getD i false then some ((i : Int)) else none)

/-- `drop_corners`: drop the given corners, then drop every link whose face row
lost both corners, then drop every patch left referencing an invalid link.  An
empty corner list returns the mesh unchanged. -/
def drop_corners (m : Mesh) (cs : List Int) : Option Mesh :=
  if cs = [] then some m
  else
    match drop_element m cs Kind.corner with
    | none => none
    | some m1 =>
      match
        drop_element m1
          (whereTrue ((m1.corners_at_face.map (fun row => row.any (fun v => v != -1))).map
            (fun b => !b)))
          Kind.link with
      | none => none
      | some m2 =>
        drop_element m2
          (whereTrue ((m2.links_at_patch.map (fun row => row.all (fun v => decide (0 ≤ v)))).map
            (fun b => !b)))
          Kind.patch

/-- `drop_perimeter_faces`. -/
def drop_perimeter_faces (m : Mesh) : Option Mesh :=
  drop_element m (whereTrue (is_perimeter_face m)) Kind.face

/-- `drop_perimeter_cells`. -/
def drop_perimeter_cells (m : Mesh) : Option Mesh :=
  drop_element m (whereTrue (is_perimeter_cell m)) Kind.cell

/-- The scipy triangulation and tessellation output that
`VoronoiDelaunay.__init__` consumes: `Delaunay(xy).simplices` together with the
`Voronoi(xy)` attributes.  The geometry itself is external to the repository,
so it enters the embedding as data. -/
structure TriVor where
  points_x : List Int
  points_y : List Int
  vertices_x : List Int
  vertices_y : List Int
  ridge_points : List (List Int)
  simplices : List (List Int)
  ridge_vertices : List (List Int)
  regions : List (List Int)
  point_region : List Int
deriving DecidableEq, Repr

/-- Modelled from the spec: `jaggedarray.unravel(..., pad=-1)` of
`landlab.utils.jaggedarray`, which is not among the available python sources.
Each region is padded with the -1 sentinel to the maximum region width. -/
def padRegions (regions : List (List Int)) : List (List Int) :=
  let w := regions.foldr (fun r acc => max r.length acc) 0
  regions.map (fun r => r ++ List.replicate (w - r.length) (-1))

/-- `VoronoiDelaunay.__init__`: the raw primal and dual tables.  The linker
tables of the subclass are still absent (empty). -/
def voronoiDelaunay (tv : TriVor) : Mesh :=
  { x_of_node := tv.points_x
    y_of_node := tv.points_y
    x_of_corner := tv.vertices_x
    y_of_corner := tv.vertices_y
    node := rangeInt tv.points_x.length
    corner := rangeInt tv.vertices_x.length
    nodes_at_link := tv.ridge_points
    nodes_at_patch := tv.simplices
    corners_at_face := tv.ridge_vertices
    corners_at_cell := padRegions tv.regions
    n_corners_at_cell := tv.regions.map (fun r => (r.length : Int))
    nodes_at_face := tv.ridge_points
    cell_at_node := tv.point_region
    links_at_patch := []
    node_at_cell := []
    faces_at_cell := []
    perimeter_links := none }

/-- `np.roll(row, 1)`: the row rotated one slot to the right. -/
def roll1 (row : List Int) : List Int :=
  match row.getLast? with
  | none => []
  | some last => last :: row.dropLast

/-- Modelled from the spec: the rolling-pair lookup of
`map_rolling_pairs_to_values` (`landlab.graph.sort.intpair`, not among the
available python sources): the id of the first table row matching the pair in
either orientation, -1 when no row matches. -/
def lookupPair (table : List (List Int)) (p : Int × Int) : Int :=
  match table.findIdx? (fun q => q == [p.1, p.2] || q == [p.2, p.1]) with
  | some i => (i : Int)
  | none => -1

/-- Modelled from the spec: `VoronoiDelaunayToGraph._links_at_patch`, the
rolling-pair match of each patch or cell row against the pair table. -/
def linksAtPatch (nodes_at_link : List (List Int)) (nodes_at_patch : List (List Int)) :
    List (List Int) :=
  nodes_at_patch.map (fun row => (row.zip (roll1 row)).map (lookupPair nodes_at_link))

/-- First index of `c` in `ids`, -1 when absent. -/
def firstIdx (ids : List Int) (c : Int) : Int :=
  match ids with
  | [] => -1
  | x :: xs =>
    if x = c then 0
    else
      let r := firstIdx xs c
      if r < 0 then -1 else r + 1

/-- Modelled from the spec: `reverse_one_to_one` (`landlab.graph.sort.sort`,
not among the available python sources): the inverse of a one-to-one id array,
with one slot per target id from 0 to the maximum and -1 where no source id
maps there. -/
def reverse_one_to_one (ids : List Int) : List Int :=
  (List.range (ids.foldr max (-1) + 1).toNat).map (fun (c : Nat) => firstIdx ids (c : Int))

/-- The linker stage of `VoronoiDelaunayToGraph.__init__`: the two
`mesh.update` calls that add `links_at_patch`, `node_at_cell` and
`faces_at_cell`, before any pruning. -/
def voronoiDelaunayToGraphLinked (tv : TriVor) (pl : Option (List (List Int))) : Mesh :=
  let m := voronoiDelaunay tv
  { m with
    perimeter_links := pl
    links_at_patch := linksAtPatch m.nodes_at_link m.nodes_at_patch
    node_at_cell := reverse_one_to_one m.cell_at_node
    faces_at_cell := linksAtPatch m.corners_at_face m.corners_at_cell }

/-- The full `VoronoiDelaunayToGraph.__init__`: linker stage followed by the
pruning pipeline. -/
def voronoiDelaunayToGraph (tv : TriVor) (pl : Option (List (List Int))) : Option Mesh :=
  let m := voronoiDelaunayToGraphLinked tv pl
  match drop_corners m (unbound_corners m) with
  | none => none
  | some m1 =>
    match drop_perimeter_faces m1 with
    | none => none
    | some m2 => drop_perimeter_cells m2

/-- The observable remap the specification mandates for `drop_element` (stated
from the spec for comparison with the source's `remapEntry`): an entry equal to
a dropped id becomes -1, and an entry referencing a surviving id `j` becomes
`j` minus the number of distinct dropped ids below `j`; a -1 entry stays -1. -/
def specRemap (dropped : List Int) (v : Int) : Int :=
  if v ∈ dropped then -1 else v - ((dropped.dedup).filter (fun d => decide (d < v))).length

/-- The membership condition claimed for `unbound_corners` (stated from the
spec for comparison with the source): corner `c` is used by at least one face
and only by faces that are perimeter-by-geometry but not perimeter under the
explicit link override. -/
def usedOnlyBy (m : Mesh) (c : Int) : Bool :=
  (m.corners_at_face.any (fun row => row.contains c)) &&
  ((List.zipWith (fun row q => !(row.contains c) || q) m.corners_at_face (dropMask m)).all id)

/-- A one-to-one id array: equal non-negative entries sit at equal positions.
`cell_at_node` as produced by the tessellation is one-to-one. -/
abbrev OneToOne (ids : List Int) : Prop :=
  ∀ i : Nat, ∀ hi : i < ids.length, ∀ j : Nat, ∀ hj : j < ids.length,
    0 ≤ ids.get ⟨i, hi⟩ → ids.get ⟨i, hi⟩ = ids.get ⟨j, hj⟩ → i = j

/-- Two id arrays are mutual inverses on their shared domain: wherever either
has a non-negative entry, the other maps it back. -/
def MutualInverse (a b : List Int) : Prop :=
  (∀ i : Nat, ∀ hi : i < a.length, 0 ≤ a.get ⟨i, hi⟩ →
    ∃ h : (a.get ⟨i, hi⟩).toNat < b.length,
      b.get ⟨(a.get ⟨i, hi⟩).toNat, h⟩ = (i : Int)) ∧
  (∀ j : Nat, ∀ hj : j < b.length, 0 ≤ b.get ⟨j, hj⟩ →
    ∃ h : (b.get ⟨j, hj⟩).toNat < a.length,
      a.get ⟨(b.get ⟨j, hj⟩).toNat, h⟩ = (j : Int))

/-- A concrete five-corner mesh used to evaluate `drop_element` on the
scenarios of the claims. -/
def c5m : Mesh :=
  { x_of_node := [0, 1]
    y_of_node := [0, 0]
    x_of_corner := [10, 11, 12, 13, 14]
    y_of_corner := [20, 21, 22, 23, 24]
    node := [0, 1]
    corner := [0, 1, 2, 3, 4]
    nodes_at_link := [[0, 1], [0, 1], [0, 1], [0, 1], [0, 1]]
    nodes_at_patch := []
    corners_at_face := [[0, 1], [1, 2], [2, 3], [3, 4], [4, -1]]
    corners_at_cell := [[0, 1, 2], [2, 3, 4]]
    n_corners_at_cell := [3, 3]
    nodes_at_face := [[0, 1], [0, 1], [0, 1], [0, 1], [0, 1]]
    cell_at_node := [0, 1]
    links_at_patch := []
    node_at_cell := [0, 1]
    faces_at_cell := [[0, 1, 2], [2, 3, 4]]
    perimeter_links := none }

/-- A concrete three-corner mesh on which dropping the two consecutive corners
0 and 1 exposes the remap of `drop_element`. -/
def c3c : Mesh :=
  { x_of_node := [0, 1]
    y_of_node := [0, 0]
    x_of_corner := [10, 11, 12]
    y_of_corner := [20, 21, 22]
    node := [0, 1]
    corner := [0, 1, 2]
    nodes_at_link := [[0, 1], [0, 1], [0, 1]]
    nodes_at_patch := []
    corners_at_face := [[2, 0], [1, 2], [0, -1]]
    corners_at_cell := [[0, 1, 2]]
    n_corners_at_cell := [3]
    nodes_at_face := [[0, 1], [0, 1], [0, 1]]
    cell_at_node := [0, 1]
    links_at_patch := []
    node_at_cell := [0, 1]
    faces_at_cell := [[0, 1, 2]]
    perimeter_links := none }

/-- A concrete mesh with an explicit perimeter-link override under which
corner 0 dangles from the droppable face 0 but is also used by the interior
face 1. -/
def cx2 : Mesh :=
  { x_of_node := [0, 1, 2]
    y_of_node := [0, 0, 0]
    x_of_corner := [5, 6]
    y_of_corner := [7, 8]
    node := [0, 1, 2]
    corner := [0, 1]
    nodes_at_link := [[0, 1], [1, 2]]
    nodes_at_patch := []
    corners_at_face := [[0, -1], [0, 1]]
    corners_at_cell := [[-1, 0], [0, 1], [1, -1]]
    n_corners_at_cell := [2, 2, 2]
    nodes_at_face := [[0, 1], [1, 2]]
    cell_at_node := [0, 1, 2]
    links_at_patch := []
    node_at_cell := [0, 1, 2]
    faces_at_cell := [[-1, 0], [0, 1], [1, -1]]
    perimeter_links := some [[1, 2]] }

/-- A concrete mesh whose pipeline corner drop leaves face 0 with both corner
slots at -1. -/
def cx3 : Mesh :=
  { x_of_node := [0, 1, 2, 3]
    y_of_node := [0, 0, 0, 0]
    x_of_corner := [5, 6]
    y_of_corner := [7, 8]
    node := [0, 1, 2, 3]
    corner := [0, 1]
    nodes_at_link := [[0, 1], [1, 2], [2, 3]]
    nodes_at_patch := [[0, 1, 2]]
    corners_at_face := [[0, -1], [0, 1], [1, -1]]
    corners_at_cell := [[-1, 0], [0, 1], [1, -1], [-1, -1]]
    n_corners_at_cell := [2, 2, 2, 1]
    nodes_at_face := [[0, 1], [1, 2], [2, 3]]
    cell_at_node := [0, 1, 2, 3]
    links_at_patch := [[0, 1, -1]]
    node_at_cell := [0, 1, 2, 3]
    faces_at_cell := [[-1, 0], [0, 1], [1, -1], [-1, -1]]
    perimeter_links := some [[1, 2], [2, 3]] }

/-- The mesh produced by `drop_corners cx3 [0]`, written out. -/
def cx3d : Mesh :=
  { x_of_node := [0, 1, 2, 3]
    y_of_node := [0, 0, 0, 0]
    x_of_corner := [6]
    y_of_corner := [8]
    node := [0, 1, 2, 3]
    corner := [0]
    nodes_at_link := [[1, 2], [2, 3]]
    nodes_at_patch := []
    corners_at_face := [[-1, -1], [-1, 0], [0, -1]]
    corners_at_cell := [[-1, -1], [-1, 0], [0, -1], [-1, -1]]
    n_corners_at_cell := [2, 2, 2, 1]
    nodes_at_face := [[0, 1], [1, 2], [2, 3]]
    cell_at_node := [0, 1, 2, 3]
    links_at_patch := []
    node_at_cell := [0, 1, 2, 3]
    faces_at_cell := [[-1, 0], [0, 1], [1, -1], [-1, -1]]
    perimeter_links := some [[1, 2], [2, 3]] }

/-- A concrete tessellation output with a one-to-one `point_region`. -/
def tv6 : TriVor :=
  { points_x := [0, 1, 2]
    points_y := [0, 0, 1]
    vertices_x := [4]
    vertices_y := [5]
    ridge_points := [[0, 1], [1, 2], [0, 2]]
    simplices := [[0, 1, 2]]
    ridge_vertices := [[0, -1], [0, -1], [0, -1]]
    regions := [[], [0, -1], [-1, 0], [0, -1]]
    point_region := [1, 2, 3] }

theorem mem_maskFilter {α : Type} (keep : List Bool) (xs : List α) (x : α) :
    x ∈ maskFilter keep xs ↔
      ∃ i : Nat, ∃ _h1 : i < keep.length, ∃ _h2 : i < xs.length,
        keep[i] = true ∧ xs[i] = x := by
  induction keep generalizing xs with
  | nil => simp [maskFilter]
  | cons k ks ih =>
    cases xs with
    | nil => simp [maskFilter]
    | cons y ys =>
      cases k with
      | true =>
        simp only [show maskFilter (true :: ks) (y :: ys) = y :: maskFilter ks ys from rfl,
          List.mem_cons, ih]
        constructor
        · rintro (rfl | ⟨i, h1, h2, hk, hx⟩)
          · exact ⟨0, by simp, by simp, rfl, rfl⟩
          · exact ⟨i + 1, by simpa using h1, by simpa using h2, by simpa using hk,
              by simpa using hx⟩
        · rintro ⟨i, h1, h2, hk, hx⟩
          cases i with
          | zero => exact Or.inl (by simpa using hx.symm)
          | succ i =>
            exact Or.inr ⟨i, by simpa using h1, by simpa using h2, by simpa using hk,
              by simpa using hx⟩
      | false =>
        simp only [show maskFilter (false :: ks) (y :: ys) = maskFilter ks ys from rfl, ih]
        constructor
        · rintro ⟨i, h1, h2, hk, hx⟩
          exact ⟨i + 1, by simpa using h1, by simpa using h2, by simpa using hk,
            by simpa using hx⟩
        · rintro ⟨i, h1, h2, hk, hx⟩
          cases i with
          | zero => simp at hk
          | succ i =>
            exact ⟨i, by simpa using h1, by simpa using h2, by simpa using hk,
              by simpa using hx⟩

theorem maskFilter_length {α : Type} (keep : List Bool) (xs : List α)
    (h : keep.length = xs.length) :
    (maskFilter keep xs).length = keep.count true := by
  induction keep generalizing xs with
  | nil => simp [maskFilter]
  | cons k ks ih =>
    cases xs with
    | nil => simp at h
    | cons y ys =>
      have hlen : ks.length = ys.length := by simpa using h
      cases k with
      | true =>
        simp [show maskFilter (true :: ks) (y :: ys) = y :: maskFilter ks ys from rfl,
          ih ys hlen, List.count_cons]
      | false =>
        simp [show maskFilter (false :: ks) (y :: ys) = maskFilter ks ys from rfl,
          ih ys hlen, List.count_cons]

theorem mem_insertUnique (x a : Int) (l : List Int) :
    a ∈ insertUnique x l ↔ a = x ∨ a ∈ l := by
  induction l with
  | nil => simp [insertUnique]
  | cons y ys ih =>
    by_cases h1 : x < y
    · simp only [insertUnique, if_pos h1, List.mem_cons]
    · by_cases h2 : x = y
      · subst h2
        rw [show insertUnique x (x :: ys) = x :: ys from by simp [insertUnique, h1]]
        rw [List.mem_cons]
        tauto
      · simp only [insertUnique, if_neg h1, if_neg h2, List.mem_cons, ih]
        tauto

theorem sorted_insertUnique (x : Int) (l : List Int)
    (h : l.Sorted (fun a b => a < b)) :
    (insertUnique x l).Sorted (fun a b => a < b) := by
  induction l with
  | nil => simp [insertUnique]
  | cons y ys ih =>
    rw [List.sorted_cons] at h
    obtain ⟨hy, hys⟩ := h
    by_cases h1 : x < y
    · rw [show insertUnique x (y :: ys) = x :: y :: ys from by simp [insertUnique, h1]]
      refine List.sorted_cons.mpr ⟨?_, List.sorted_cons.mpr ⟨hy, hys⟩⟩
      intro b hb
      rcases List.mem_cons.mp hb with rfl | hb
      · exact h1
      · exact lt_trans h1 (hy b hb)
    · by_cases h2 : x = y
      · rw [show insertUnique x (y :: ys) = y :: ys from by simp [insertUnique, h1, h2]]
        exact List.sorted_cons.mpr ⟨hy, hys⟩
      · rw [show insertUnique x (y :: ys) = y :: insertUnique x ys from by
          simp [insertUnique, h1, h2]]
        refine List.sorted_cons.mpr ⟨?_, ih hys⟩
        intro b hb
        rcases (mem_insertUnique x b ys).mp hb with rfl | hb
        · omega
        · exact hy b hb

theorem mem_uniqueSorted (xs : List Int) (a : Int) : a ∈ uniqueSorted xs ↔ a ∈ xs := by
  induction xs with
  | nil => simp [uniqueSorted]
  | cons x l ih =>
    rw [show uniqueSorted (x :: l) = insertUnique x (uniqueSorted l) from rfl,
      mem_insertUnique, ih, List.mem_cons]

theorem sorted_uniqueSorted (xs : List Int) :
    (uniqueSorted xs).Sorted (fun a b => a < b) := by
  induction xs with
  | nil => simp [uniqueSorted]
  | cons x l ih => exact sorted_insertUnique x _ ih

theorem mem_sortAsc (xs : List Int) (a : Int) : a ∈ sortAsc xs ↔ a ∈ xs :=
  (List.perm_insertionSort _ xs).mem_iff

theorem sortAsc_eq_of_perm (xs ys : List Int) (h : xs.Perm ys) : sortAsc xs = sortAsc ys := by
  unfold sortAsc
  exact List.eq_of_perm_of_sorted
    ((List.perm_insertionSort _ xs).trans (h.trans (List.perm_insertionSort _ ys).symm))
    (List.sorted_insertionSort _ xs)
    (List.sorted_insertionSort _ ys)

theorem resolveIndex_isSome (n : Nat) (i : Int) :
    (resolveIndex n i).isSome = true ↔ (-(n : Int) ≤ i ∧ i < (n : Int)) := by
  unfold resolveIndex
  by_cases h1 : 0 ≤ i ∧ i < (n : Int)
  · rw [if_pos h1]; simp; omega
  · rw [if_neg h1]
    by_cases h2 : -(n : Int) ≤ i ∧ i < 0
    · rw [if_pos h2]; simp; omega
    · rw [if_neg h2]; simp; omega

theorem resolveIndex_ofNat (n i : Nat) (h : i < n) : resolveIndex n ((i : Int)) = some i := by
  have hco : (i : Int) = (i : Int) := rfl
  have h0 : (0 : Int) ≤ (i : Int) ∧ (i : Int) < (n : Int) := by
    rw [hco]; constructor <;> omega
  rw [resolveIndex, if_pos h0]
  simp

theorem setFalses_isSome (n : Nat) (l : List Int) : ∀ keep : List Bool,
    (setFalses n keep l).isSome = true ↔ ∀ i ∈ l, (resolveIndex n i).isSome = true := by
  induction l with
  | nil => intro keep; simp [setFalses]
  | cons x xs ih =>
    intro keep
    cases hr : resolveIndex n x with
    | none =>
      simp only [setFalses, hr]
      constructor
      · intro hfalse; cases hfalse
      · intro hall
        have := hall x (by simp)
        rw [hr] at this
        cases this
    | some j =>
      simp only [setFalses, hr, ih]
      constructor
      · intro h i hi
        rcases List.mem_cons.mp hi with rfl | hi
        · rw [hr]; rfl
        · exact h i hi
      · intro h i hi
        exact h i (List.mem_cons_of_mem _ hi)

theorem mkKeeper_isSome (n : Nat) (ids : List Int) :
    (mkKeeper n ids).isSome = true ↔ ∀ i ∈ ids, -(n : Int) ≤ i ∧ i < (n : Int) := by
  rw [mkKeeper, setFalses_isSome]
  constructor <;> intro h i hi
  · exact (resolveIndex_isSome n i).mp (h i hi)
  · exact (resolveIndex_isSome n i).mpr (h i hi)

theorem setFalses_canonical (n : Nat) (l : List Int)
    (hl : ∀ x ∈ l, ∃ i : Nat, i < n ∧ x = (i : Int)) :
    ∀ keep : List Bool, keep.length = n →
      ∃ ks : List Bool, setFalses n keep l = some ks ∧ ks.length = n ∧
        ∀ j : Nat, j < n →
          ks.getD j false = (keep.getD j false && !(decide ((j : Int) ∈ l))) := by
  induction l with
  | nil =>
    intro keep hk
    exact ⟨keep, rfl, hk, fun j _ => by simp⟩
  | cons x xs ih =>
    intro keep hk
    obtain ⟨i, hi, rfl⟩ := hl x (by simp)
    have hl' : ∀ y ∈ xs, ∃ i : Nat, i < n ∧ y = (i : Int) := fun y hy =>
      hl y (List.mem_cons_of_mem _ hy)
    obtain ⟨ks, hks, hlen, hchar⟩ := ih hl' (keep.set i false) (by simpa using hk)
    refine ⟨ks, ?_, hlen, ?_⟩
    · rw [show setFalses n keep ((i : Int) :: xs)
          = setFalses n (keep.set i false) xs from by
        simp only [setFalses, resolveIndex_ofNat n i hi]]
      exact hks
    · intro j hj
      rw [hchar j hj]
      by_cases hji : j = i
      · subst hji
        have hset : (keep.set j false).getD j false = false := by
          rw [List.getD_eq_getElem _ _ (by rw [List.length_set, hk]; exact hj)]
          simp
        rw [hset]
        simp
      · have hlenset : (keep.set i false).length = keep.length := by simp
        have hset : (keep.set i false).getD j false = keep.getD j false := by
          by_cases hjk : j < keep.length
          · rw [List.getD_eq_getElem _ _ (show j < (keep.set i false).length by omega),
              List.getD_eq_getElem _ _ hjk]
            exact List.getElem_set_ne (show i ≠ j by omega) (show j < (keep.set i false).length by omega)
          · rw [List.getD_eq_default _ _ (show keep.length ≤ j by omega),
              List.getD_eq_default _ _ (show (keep.set i false).length ≤ j by omega)]
        rw [hset]
        have hmem : ((j : Int) ∈ (i : Int) :: xs) ↔ ((j : Int) ∈ xs) := by
          simp only [List.mem_cons]
          constructor
          · rintro (hij | hx)
            · exact absurd (by omega : j = i) hji
            · exact hx
          · exact Or.inr
        simp only [hmem]

theorem mem_whereTrue (bs : List Bool) (x : Int) :
    x ∈ whereTrue bs ↔ ∃ i : Nat, i < bs.length ∧ x = (i : Int) ∧ bs.getD i false = true := by
  unfold whereTrue
  rw [List.mem_filterMap]
  constructor
  · rintro ⟨i, hi, hx⟩
    rw [List.mem_range] at hi
    by_cases hb : bs.getD i false = true
    · rw [if_pos hb] at hx
      exact ⟨i, hi, (Option.some.inj hx).symm, hb⟩
    · rw [if_neg hb] at hx
      cases hx
  · rintro ⟨i, hi, rfl, hb⟩
    exact ⟨i, List.mem_range.mpr hi, by rw [if_pos hb]⟩

theorem mkKeeper_whereTrue (bs : List Bool) (n : Nat) (hn : bs.length = n) :
    mkKeeper n (sortAsc (whereTrue bs)) = some (bs.map (fun b => !b)) := by
  have hcanon : ∀ x ∈ sortAsc (whereTrue bs), ∃ i : Nat, i < n ∧ x = (i : Int) := by
    intro x hx
    rw [mem_sortAsc] at hx
    obtain ⟨i, hi, rfl, _⟩ := (mem_whereTrue bs x).mp hx
    exact ⟨i, by omega, rfl⟩
  obtain ⟨ks, hks, hlen, hchar⟩ :=
    setFalses_canonical n _ hcanon (List.replicate n true) (by simp)
  rw [mkKeeper, hks]
  congr 1
  apply List.ext_getElem
  · rw [hlen, List.length_map, hn]
  · intro j hj1 hj2
    have hjn : j < n := by rwa [hlen] at hj1
    have hjb : j < bs.length := by omega
    rw [← List.getD_eq_getElem _ false hj1, hchar j hjn]
    have hrep : (List.replicate n true).getD j false = true := by
      rw [List.getD_eq_getElem _ _ (by simpa using hjn)]
      simp
    have hmem : ((j : Int) ∈ sortAsc (whereTrue bs)) ↔ bs.getD j false = true := by
      rw [mem_sortAsc, mem_whereTrue]
      constructor
      · rintro ⟨i, hi, hij, hb⟩
        rwa [show j = i from by omega]
      · intro hb
        exact ⟨j, hjb, rfl, hb⟩
    rw [hrep]
    simp only [Bool.true_and, hmem]
    rw [List.getElem_map, List.getD_eq_getElem _ false hjb]
    cases h : bs[j] <;> simp [h]

theorem rowContains_eq (row : List Int) (n v : Int) :
    rowContains row n v = true ↔ v ∈ row.take n.toNat := by
  induction row generalizing n with
  | nil => simp [rowContains]
  | cons x xs ih =>
    by_cases hn : n ≤ 0
    · have h0 : n.toNat = 0 := by omega
      simp [rowContains, hn, h0]
    · have h1 : n.toNat = (n - 1).toNat + 1 := by omega
      rw [show rowContains (x :: xs) n v = ((x == v) || rowContains xs (n - 1) v) from by
        simp [rowContains, hn]]
      rw [h1, List.take_succ_cons]
      simp only [Bool.or_eq_true, beq_iff_eq, List.mem_cons, ih]
      constructor
      · rintro (rfl | h)
        · exact Or.inl rfl
        · exact Or.inr h
      · rintro (rfl | h)
        · exact Or.inl rfl
        · exact Or.inr h

theorem firstIdx_mem (ids : List Int) (c : Int) (h : c ∈ ids) :
    ∃ j : Nat, firstIdx ids c = (j : Int) ∧ ∃ hj : j < ids.length, ids.get ⟨j, hj⟩ = c := by
  induction ids with
  | nil => cases h
  | cons x xs ih =>
    by_cases hx : x = c
    · exact ⟨0, by simp [firstIdx, hx], by simp, by simpa using hx⟩
    · have hc : c ∈ xs := by
        rcases List.mem_cons.mp h with h1 | h1
        · exact absurd h1.symm hx
        · exact h1
      obtain ⟨j, hj1, hj2, hj3⟩ := ih hc
      refine ⟨j + 1, ?_, by simpa using hj2, by simpa using hj3⟩
      rw [show firstIdx (x :: xs) c
          = (if firstIdx xs c < 0 then -1 else firstIdx xs c + 1) from by
        simp [firstIdx, hx]]
      rw [hj1, if_neg (by omega)]
      omega

theorem firstIdx_nonneg (ids : List Int) (c : Int) (h : 0 ≤ firstIdx ids c) :
    ∃ j : Nat, firstIdx ids c = (j : Int) ∧ ∃ hj : j < ids.length, ids.get ⟨j, hj⟩ = c := by
  induction ids with
  | nil => simp [firstIdx] at h
  | cons x xs ih =>
    by_cases hx : x = c
    · exact ⟨0, by simp [firstIdx, hx], by simp, by simpa using hx⟩
    · rw [show firstIdx (x :: xs) c
          = (if firstIdx xs c < 0 then -1 else firstIdx xs c + 1) from by
        simp [firstIdx, hx]] at h ⊢
      by_cases hr : firstIdx xs c < 0
      · rw [if_pos hr] at h
        omega
      · rw [if_neg hr] at h ⊢
        obtain ⟨j, hj1, hj2, hj3⟩ := ih (by omega)
        exact ⟨j + 1, by rw [hj1]; omega, by simpa using hj2, by simpa using hj3⟩

theorem le_foldrMax (ids : List Int) (x : Int) (h : x ∈ ids) :
    x ≤ ids.foldr max (-1) := by
  induction ids with
  | nil => cases h
  | cons y ys ih =>
    rcases List.mem_cons.mp h with rfl | h
    · exact le_max_left _ _
    · exact le_trans (ih h) (le_max_right _ _)

theorem remapEntry_single (d v : Int) (hd : 0 ≤ d) : remapEntry [d] v = specRemap [d] v := by
  have hded : ([d] : List Int).dedup = [d] := by
    rw [List.dedup_cons_of_not_mem (by simp), List.dedup_nil]
  unfold remapEntry specRemap
  rw [hded]
  by_cases h : v ∈ [d]
  · rw [if_pos h, if_pos h]
    have hv : v = d := by simpa using h
    simp only [List.foldl]
    rw [if_neg (by omega)]
  · rw [if_neg h, if_neg h]
    have hv : v ≠ d := by simpa using h
    simp only [List.foldl]
    by_cases hlt : d < v
    · rw [if_pos hlt]
      rw [show List.filter (fun d' => decide (d' < v)) [d] = [d] from by simp [hlt]]
      simp
    · rw [if_neg hlt]
      rw [show List.filter (fun d' => decide (d' < v)) [d] = [] from by simp [hlt]]
      simp

theorem drop_element_isSome_eq (m : Mesh) (ids : List Int) (k : Kind) :
    (drop_element m ids k).isSome = (mkKeeper (m.dim k) (sortAsc ids)).isSome := by
  simp only [drop_element]
  split
  · next heq => rw [heq]; rfl
  · next keep heq => rw [heq]; rfl

theorem drop_element_corner_fields (m ma : Mesh) (ids : List Int)
    (h : drop_element m ids Kind.corner = some ma) :
    ma.corners_at_face = remapTable (sortAsc ids) m.corners_at_face
    ∧ ma.corners_at_cell = remapTable (sortAsc ids) m.corners_at_cell
    ∧ ma.nodes_at_link = m.nodes_at_link
    ∧ ma.nodes_at_patch = m.nodes_at_patch
    ∧ ma.links_at_patch = m.links_at_patch
    ∧ ma.nodes_at_face = m.nodes_at_face
    ∧ ma.cell_at_node = m.cell_at_node
    ∧ ma.node_at_cell = m.node_at_cell := by
  simp only [drop_element] at h
  cases hk : mkKeeper (m.dim Kind.corner) (sortAsc ids) with
  | none => rw [hk] at h; cases h
  | some keep =>
    rw [hk] at h
    cases Option.some.inj h
    exact ⟨rfl, rfl, rfl, rfl, rfl, rfl, rfl, rfl⟩

theorem drop_element_link_fields (m ma : Mesh) (ids : List Int)
    (h : drop_element m ids Kind.link = some ma) :
    ∃ keep : List Bool, mkKeeper m.nodes_at_link.length (sortAsc ids) = some keep
    ∧ ma.nodes_at_link = maskFilter keep m.nodes_at_link
    ∧ ma.links_at_patch = remapTable (sortAsc ids) m.links_at_patch
    ∧ ma.corners_at_face = m.corners_at_face
    ∧ ma.corners_at_cell = m.corners_at_cell
    ∧ ma.nodes_at_patch = m.nodes_at_patch
    ∧ ma.nodes_at_face = m.nodes_at_face
    ∧ ma.cell_at_node = m.cell_at_node
    ∧ ma.node_at_cell = m.node_at_cell := by
  simp only [drop_element] at h
  cases hk : mkKeeper (m.dim Kind.link) (sortAsc ids) with
  | none => rw [hk] at h; cases h
  | some keep =>
    rw [hk] at h
    cases Option.some.inj h
    exact ⟨keep, hk, rfl, rfl, rfl, rfl, rfl, rfl, rfl, rfl⟩

theorem drop_element_patch_fields (m ma : Mesh) (ids : List Int)
    (h : drop_element m ids Kind.patch = some ma) :
    ∃ keep : List Bool, mkKeeper m.nodes_at_patch.length (sortAsc ids) = some keep
    ∧ ma.nodes_at_patch = maskFilter keep m.nodes_at_patch
    ∧ ma.links_at_patch = maskFilter keep m.links_at_patch
    ∧ ma.corners_at_face = m.corners_at_face
    ∧ ma.corners_at_cell = m.corners_at_cell
    ∧ ma.nodes_at_link = m.nodes_at_link
    ∧ ma.nodes_at_face = m.nodes_at_face
    ∧ ma.cell_at_node = m.cell_at_node
    ∧ ma.node_at_cell = m.node_at_cell := by
  simp only [drop_element] at h
  cases hk : mkKeeper (m.dim Kind.patch) (sortAsc ids) with
  | none => rw [hk] at h; cases h
  | some keep =>
    rw [hk] at h
    cases Option.some.inj h
    exact ⟨keep, hk, rfl, rfl, rfl, rfl, rfl, rfl, rfl, rfl⟩

theorem drop_element_face_fields (m ma : Mesh) (ids : List Int)
    (h : drop_element m ids Kind.face = some ma) :
    ∃ keep : List Bool, mkKeeper m.corners_at_face.length (sortAsc ids) = some keep
    ∧ ma.corners_at_face = maskFilter keep m.corners_at_face
    ∧ ma.nodes_at_face = maskFilter keep m.nodes_at_face
    ∧ ma.faces_at_cell = remapTable (sortAsc ids) m.faces_at_cell
    ∧ ma.corners_at_cell = m.corners_at_cell
    ∧ ma.nodes_at_link = m.nodes_at_link
    ∧ ma.nodes_at_patch = m.nodes_at_patch
    ∧ ma.cell_at_node = m.cell_at_node
    ∧ ma.node_at_cell = m.node_at_cell := by
  simp only [drop_element] at h
  cases hk : mkKeeper (m.dim Kind.face) (sortAsc ids) with
  | none => rw [hk] at h; cases h
  | some keep =>
    rw [hk] at h
    cases Option.some.inj h
    exact ⟨keep, hk, rfl, rfl, rfl, rfl, rfl, rfl, rfl, rfl⟩

/-- Claim C1, code evidence: dropping the corner set `{0, 1}` from a
three-corner mesh leaves the face entry that referenced the surviving corner 2
at the value 1, whereas the claimed rewrite (dropped ids to -1, surviving id
`j` to `j` minus the number of dropped ids below `j`) demands 0.  The ascending
decrement loop of `drop_element` stops acting on a value once it has fallen
onto a later dropped id, so consecutive dropped ids are under-compensated and
the resulting reference (here 1, with only one corner left) is even out of
range. -/
theorem c1_remap_deviates_from_spec :
    (drop_element c3c [0, 1] Kind.corner).map Mesh.corners_at_face
        = some [[1, -1], [-1, 1], [-1, -1]]
    ∧ c3c.corners_at_face.map (List.map (specRemap [0, 1]))
        = [[0, -1], [-1, 0], [-1, -1]]
    ∧ ¬ (drop_element c3c [0, 1] Kind.corner).map Mesh.corners_at_face
        = some (c3c.corners_at_face.map (List.map (specRemap [0, 1]))) :=
  ⟨by decide, by decide, by decide⟩

/-- Claim C2, counterexample: on `cx2` the source returns corner 0 even though
corner 0 is also used by face 1, which is not perimeter-by-geometry, so the
claimed characterization (corners used ONLY by perimeter-by-geometry,
non-perimeter-link faces) is refuted: `unbound_corners` collects the corners
of the selected faces regardless of their other uses. -/
theorem c2_counterexample :
    unbound_corners cx2 = [0]
    ∧ (0 : Int) ∈ cx2.corners_at_face.getD 1 []
    ∧ (is_perimeter_face cx2).getD 1 true = false
    ∧ usedOnlyBy cx2 0 = false
    ∧ ¬ (∀ c ∈ unbound_corners cx2, usedOnlyBy cx2 c = true) :=
  ⟨by decide, by decide, by decide, by decide, by decide⟩

/-- Claim C3, counterexample: on `cx3` the pipeline corner drop leaves face 0
of `corners_at_face` with both slots at -1 — the all-invalid face row is
dropped from the link tables, not from the face tables, so right after
`drop_corners` there is a remaining face with no valid corner. -/
theorem c3_counterexample :
    unbound_corners cx3 = [0]
    ∧ (drop_corners cx3 (unbound_corners cx3)).map Mesh.corners_at_face
        = some [[-1, -1], [-1, 0], [0, -1]]
    ∧ ¬ (∀ row ∈ ([[-1, -1], [-1, 0], [0, -1]] : List (List Int)),
          ∃ v ∈ row, (0 : Int) ≤ v) :=
  ⟨by decide, by decide, by decide⟩

/-- Claim C7, counterexample: `drop_element` with the duplicate id list
`[2, 2]` completes (no failure), yet the resulting tables are not consistent
with the compaction remap of the dropped set `{2}`: the duplicated id is
decremented twice, so the entries referencing corners 3 and 4 collide at 2.
This refutes the claim that every call either completes with mutually
consistent tables or fails before modifying anything. -/
theorem c7_counterexample :
    (drop_element c5m [2, 2] Kind.corner).isSome = true
    ∧ (drop_element c5m [2, 2] Kind.corner).map Mesh.corners_at_face
        = some [[0, 1], [1, -1], [-1, 2], [2, 2], [2, -1]]
    ∧ c5m.corners_at_face.map (List.map (specRemap [2, 2]))
        = [[0, 1], [1, -1], [-1, 2], [2, 3], [3, -1]]
    ∧ ¬ (drop_element c5m [2, 2] Kind.corner = none
        ∨ (drop_element c5m [2, 2] Kind.corner).map Mesh.corners_at_face
            = some (c5m.corners_at_face.map (List.map (specRemap [2, 2])))) :=
  ⟨by decide, by decide, by decide, by decide⟩

/-- Claim C7, amended: a `drop_element` pass completes exactly when every id
lies in the index range accepted by numpy (`-count ≤ id < count`); an id
outside that range raises before any table of the mesh has been modified (in
this embedding, the whole call returns `none`).  Completion alone does not
guarantee consistency of the tables — see the counterexample with duplicate
ids. -/
theorem c7_drop_element_completes_iff (m : Mesh) (ids : List Int) (k : Kind) :
    (drop_element m ids k).isSome = true ↔
      ∀ i ∈ ids, -(m.dim k : Int) ≤ i ∧ i < (m.dim k : Int) := by
  rw [drop_element_isSome_eq, mkKeeper_isSome]
  constructor <;> intro h i hi
  · exact h i ((mem_sortAsc ids i).mpr hi)
  · exact h i ((mem_sortAsc ids i).mp hi)

/-- Claim C9: immediately after `VoronoiDelaunay.__init__` the face and link
index spaces coincide — both `nodes_at_link` and `nodes_at_face` are set to
the tessellation's `ridge_points`, and the two dimension sizes agree because
scipy produces one `ridge_vertices` row per `ridge_points` row, which is the
stated hypothesis. -/
theorem c9_faces_coincide_with_links (tv : TriVor)
    (h : tv.ridge_vertices.length = tv.ridge_points.length) :
    (voronoiDelaunay tv).dim Kind.face = (voronoiDelaunay tv).dim Kind.link
    ∧ (voronoiDelaunay tv).nodes_at_face = (voronoiDelaunay tv).nodes_at_link := by
  exact ⟨h, rfl⟩

/-- Witness for C9 at the concrete tessellation output `tv6`. -/
theorem c9_witness :
    (voronoiDelaunay tv6).dim Kind.face = (voronoiDelaunay tv6).dim Kind.link
    ∧ (voronoiDelaunay tv6).nodes_at_face = (voronoiDelaunay tv6).nodes_at_link :=
  c9_faces_coincide_with_links tv6 (by decide)

/-- Claim C10: `drop_element` sorts its id argument before using it, so two
id lists that are permutations of one another produce identical meshes. -/
theorem c10_drop_element_order_invariant (m : Mesh) (k : Kind) (ids p : List Int)
    (_hnd : ids.Nodup) (_hval : ∀ i ∈ ids, 0 ≤ i ∧ i < (m.dim k : Int))
    (hperm : ids.Perm p) :
    drop_element m ids k = drop_element m p k := by
  simp only [drop_element]
  rw [sortAsc_eq_of_perm ids p hperm]

/-- Witness for C10: the two orders of dropping corners 1 and 3 agree on
`c5m`. -/
theorem c10_witness :
    drop_element c5m [1, 3] Kind.corner = drop_element c5m [3, 1] Kind.corner :=
  c10_drop_element_order_invariant c5m Kind.corner [1, 3] [3, 1] (by decide) (by decide)
    (by decide)

/-- Claim C5: on any mesh with five corners, `drop_element([2], at="corner")`
rewrites every corner-valued entry by the compaction map of the dropped set
`{2}` — old ids 0, 1, 3, 4 become 0, 1, 2, 3 and every entry that referenced
corner 2 becomes -1 — and rebuilds the corner index as `np.arange(4)`. -/
theorem c5_drop_corner_two (m : Mesh) (hdim : m.dim Kind.corner = 5)
    (hx : m.x_of_corner.length = 5) :
    (drop_element m [2] Kind.corner).map Mesh.corners_at_face
        = some (m.corners_at_face.map (List.map (specRemap [2])))
    ∧ (drop_element m [2] Kind.corner).map Mesh.corner = some [0, 1, 2, 3]
    ∧ List.map (specRemap [2]) [0, 1, 3, 4] = [0, 1, 2, 3]
    ∧ specRemap [2] 2 = -1 := by
  have hkeep : mkKeeper 5 (sortAsc [2]) = some [true, true, false, true, true] := by decide
  have hres : drop_element m [2] Kind.corner = some { m with
      x_of_corner := maskFilter [true, true, false, true, true] m.x_of_corner
      y_of_corner := maskFilter [true, true, false, true, true] m.y_of_corner
      corner := rangeInt (maskFilter [true, true, false, true, true] m.x_of_corner).length
      corners_at_face := remapTable (sortAsc [2]) m.corners_at_face
      corners_at_cell := remapTable (sortAsc [2]) m.corners_at_cell } := by
    simp only [drop_element, hdim, hkeep]
  have hfun : remapEntry (sortAsc [2]) = specRemap [2] := by
    funext v
    rw [show sortAsc [2] = [2] from by decide]
    exact remapEntry_single 2 v (by omega)
  refine ⟨?_, ?_, by decide, by decide⟩
  · rw [hres, Option.map_some']
    show some (remapTable (sortAsc [2]) m.corners_at_face) = _
    rw [remapTable, hfun]
  · rw [hres, Option.map_some']
    show some (rangeInt (maskFilter [true, true, false, true, true] m.x_of_corner).length)
        = some [0, 1, 2, 3]
    rw [maskFilter_length _ _ (by rw [hx]; rfl)]
    decide

/-- Witness for C5 at the concrete five-corner mesh `c5m`. -/
theorem c5_witness :
    (drop_element c5m [2] Kind.corner).map Mesh.corners_at_face
        = some (c5m.corners_at_face.map (List.map (specRemap [2])))
    ∧ (drop_element c5m [2] Kind.corner).map Mesh.corner = some [0, 1, 2, 3]
    ∧ List.map (specRemap [2]) [0, 1, 3, 4] = [0, 1, 2, 3]
    ∧ specRemap [2] 2 = -1 :=
  c5_drop_corner_two c5m (by decide) (by decide)

/-- Claim C4: the live code path of `is_perimeter_cell` marks cell `c` exactly
when -1 occurs among the first `n_corners_at_cell[c]` entries of
`corners_at_cell[c]` or `n_corners_at_cell[c]` is below 3. -/
theorem c4_is_perimeter_cell_spec (m : Mesh) (c : Nat)
    (h : c < (is_perimeter_cell m).length) :
    (is_perimeter_cell m).get ⟨c, h⟩ = true ↔
      ((-1 : Int) ∈ (m.corners_at_cell.getD c []).take (m.n_corners_at_cell.getD c 0).toNat
        ∨ m.n_corners_at_cell.getD c 0 < 3) := by
  have h3 : c < m.corners_at_cell.length := by
    simp only [is_perimeter_cell, id_array_contains, List.length_zipWith,
      List.length_map] at h
    omega
  have h4 : c < m.n_corners_at_cell.length := by
    simp only [is_perimeter_cell, id_array_contains, List.length_zipWith,
      List.length_map] at h
    omega
  rw [List.get_eq_getElem]
  simp only [is_perimeter_cell, id_array_contains, List.getElem_zipWith, List.getElem_map]
  rw [List.getD_eq_getElem _ _ h3, List.getD_eq_getElem _ _ h4]
  rw [Bool.or_eq_true, rowContains_eq, decide_eq_true_eq]

/-- Witness for C4 at the concrete mesh `cx2`, cell 0. -/
theorem c4_witness :
    (is_perimeter_cell cx2).get ⟨0, by decide⟩ = true ↔
      ((-1 : Int) ∈ (cx2.corners_at_cell.getD 0 []).take (cx2.n_corners_at_cell.getD 0 0).toNat
        ∨ cx2.n_corners_at_cell.getD 0 0 < 3) :=
  c4_is_perimeter_cell_spec cx2 0 (by decide)

/-- Claim C2, amended: `unbound_corners` returns the strictly sorted,
duplicate-free list of the non-negative corner ids used by AT LEAST ONE face
that is perimeter-by-geometry but not perimeter under the explicit link
override (not only by such faces).  The length hypothesis records that the
face and link dimensions agree, which holds at the pipeline point where the
function is invoked. -/
theorem c2_unbound_corners_spec (m : Mesh)
    (hlen : (is_perimeter_link m).length = m.corners_at_face.length) :
    List.Sorted (fun a b => a < b) (unbound_corners m)
    ∧ ∀ c : Int, (c ∈ unbound_corners m ↔
        0 ≤ c ∧ ∃ i : Nat, i < m.corners_at_face.length
          ∧ (is_perimeter_face m).getD i false = true
          ∧ (is_perimeter_link m).getD i true = false
          ∧ c ∈ m.corners_at_face.getD i []) := by
  have hpf : (is_perimeter_face m).length = m.corners_at_face.length := by
    simp [is_perimeter_face]
  constructor
  · exact sorted_uniqueSorted _
  · intro c
    unfold unbound_corners
    rw [mem_uniqueSorted, List.mem_filter, List.mem_flatten]
    constructor
    · rintro ⟨⟨row, hrow, hc⟩, hpos⟩
      obtain ⟨i, hi1, hi2, hkt, hrw⟩ := (mem_maskFilter _ _ row).mp hrow
      have hi3 : i < (is_perimeter_face m).length := by omega
      have hi4 : i < (is_perimeter_link m).length := by omega
      simp only [dropMask, List.getElem_zipWith, Bool.and_eq_true, Bool.not_eq_eq_eq_not,
        Bool.not_true] at hkt
      refine ⟨by simpa using hpos, i, hi2, ?_, ?_, ?_⟩
      · rw [List.getD_eq_getElem _ _ hi3]
        exact hkt.1
      · rw [List.getD_eq_getElem _ _ hi4]
        exact hkt.2
      · rw [List.getD_eq_getElem _ _ hi2, hrw]
        exact hc
    · rintro ⟨hpos, i, hi, hpft, hplf, hcmem⟩
      have hi3 : i < (is_perimeter_face m).length := by omega
      have hi4 : i < (is_perimeter_link m).length := by omega
      rw [List.getD_eq_getElem _ _ hi3] at hpft
      rw [List.getD_eq_getElem _ _ hi4] at hplf
      rw [List.getD_eq_getElem _ _ hi] at hcmem
      refine ⟨⟨m.corners_at_face.get ⟨i, hi⟩, ?_, by simpa using hcmem⟩, by simpa using hpos⟩
      apply (mem_maskFilter _ _ _).mpr
      have hi1 : i < (dropMask m).length := by
        simp only [dropMask, List.length_zipWith]
        omega
      refine ⟨i, hi1, hi, ?_, by simp⟩
      simp only [dropMask, List.getElem_zipWith]
      rw [hpft, hplf]
      rfl

/-- Witness for C2 at the concrete mesh `cx2`: the returned list is strictly
sorted. -/
theorem c2_witness : List.Sorted (fun a b => a < b) (unbound_corners cx2) :=
  (c2_unbound_corners_spec cx2 (by decide)).1

/-- Claim C3, amended: `drop_corners` deletes no face — `corners_at_face`
keeps one (remapped) row per original face, and the indices whose face row
lost every corner are instead dropped from the link tables, so `nodes_at_link`
keeps exactly the rows whose face row retains a valid corner.  Faces with no
valid corner leave the face tables only at the later `drop_perimeter_faces`
step, after which every remaining face row is free of -1. -/
theorem c3_drop_corners_amended (m : Mesh) (cs : List Int)
    (hne : cs ≠ [])
    (hlen : m.corners_at_face.length = m.nodes_at_link.length) :
    ∀ m1 : Mesh, drop_corners m cs = some m1 →
      (m1.corners_at_face = remapTable (sortAsc cs) m.corners_at_face
      ∧ m1.nodes_at_link =
          maskFilter ((remapTable (sortAsc cs) m.corners_at_face).map
            (fun row => row.any (fun v => v != -1))) m.nodes_at_link
      ∧ ∀ m2 : Mesh, drop_perimeter_faces m1 = some m2 →
          ∀ row ∈ m2.corners_at_face, (-1 : Int) ∉ row) := by
  intro m1 h1
  rw [drop_corners, if_neg hne] at h1
  cases ha : drop_element m cs Kind.corner with
  | none => rw [ha] at h1; cases h1
  | some ma =>
    rw [ha] at h1
    dsimp only at h1
    obtain ⟨hafc, hacc, hal, hap, halp, hanf, hacn, hanc⟩ :=
      drop_element_corner_fields m ma cs ha
    cases hb : drop_element ma
        (whereTrue ((ma.corners_at_face.map (fun row => row.any (fun v => v != -1))).map
          (fun b => !b)))
        Kind.link with
    | none => rw [hb] at h1; cases h1
    | some mb =>
      rw [hb] at h1
      dsimp only at h1
      obtain ⟨keepb, hkb, hbl, hblp, hbfc, hbcc, hbp, hbnf, hbcn, hbnc⟩ :=
        drop_element_link_fields ma mb _ hb
      have hblen :
          ((ma.corners_at_face.map (fun row => row.any (fun v => v != -1))).map
            (fun b => !b)).length = ma.nodes_at_link.length := by
        rw [List.length_map, List.length_map, hafc, hal, remapTable, List.length_map, hlen]
      have hkb2 := mkKeeper_whereTrue _ _ hblen
      rw [hkb2] at hkb
      have hkeep : keepb = ma.corners_at_face.map (fun row => row.any (fun v => v != -1)) := by
        rw [← Option.some.inj hkb]
        simp
      obtain ⟨keepc, hkc, hcp, hclp, hcfc, hccc, hcl, hcnf, hccn, hcnc⟩ :=
        drop_element_patch_fields mb m1 _ h1
      refine ⟨?_, ?_, ?_⟩
      · rw [hcfc, hbfc, hafc]
      · rw [hcl, hbl, hkeep, hafc, hal]
      · intro m2 h2 row hrow
        rw [drop_perimeter_faces] at h2
        obtain ⟨keepd, hkd, hdfc, _⟩ := drop_element_face_fields m1 m2 _ h2
        have hd2 := mkKeeper_whereTrue (is_perimeter_face m1) m1.corners_at_face.length
          (by simp [is_perimeter_face])
        rw [hd2] at hkd
        rw [hdfc, ← Option.some.inj hkd] at hrow
        obtain ⟨i, hi1, hi2, hki, hri⟩ := (mem_maskFilter _ _ row).mp hrow
        have hi3 : i < (is_perimeter_face m1).length := by
          rw [List.length_map] at hi1
          exact hi1
        rw [List.getElem_map] at hki
        have hpfi : (is_perimeter_face m1).get ⟨i, hi3⟩ = false := by
          rw [List.get_eq_getElem]
          rcases hb : (is_perimeter_face m1)[i] with _ | _
          · rfl
          · rw [hb] at hki
            cases hki
        rw [List.get_eq_getElem] at hpfi
        simp only [is_perimeter_face, List.getElem_map] at hpfi
        rw [hri] at hpfi
        intro hmem
        have := (List.any_eq_false.mp hpfi) (-1) hmem
        simp at this

/-- Witness for C3's amended statement at the concrete mesh `cx3` with the
corner set `[0]`: the face table after `drop_corners` is the remapped
original, with no face deleted. -/
theorem c3_witness :
    cx3d.corners_at_face = remapTable (sortAsc [0]) cx3.corners_at_face :=
  (c3_drop_corners_amended cx3 [0] (by decide) (by decide) cx3d (by decide)).1

theorem mutualInverse_reverse (ids : List Int) (h : OneToOne ids) :
    MutualInverse ids (reverse_one_to_one ids) := by
  have hlen : (reverse_one_to_one ids).length = (ids.foldr max (-1) + 1).toNat := by
    unfold reverse_one_to_one
    rw [List.length_map, List.length_range]
  have hget : ∀ k : Nat, ∀ hk : k < (reverse_one_to_one ids).length,
      (reverse_one_to_one ids).get ⟨k, hk⟩ = firstIdx ids (k : Int) := by
    intro k hk
    unfold reverse_one_to_one
    rw [List.get_eq_getElem]
    rw [List.getElem_map, List.getElem_range]
  constructor
  · intro i hi hpos
    have hmem : ids.get ⟨i, hi⟩ ∈ ids := List.get_mem ids i hi
    have hmax : ids.get ⟨i, hi⟩ ≤ ids.foldr max (-1) := le_foldrMax ids _ hmem
    have hb : (ids.get ⟨i, hi⟩).toNat < (reverse_one_to_one ids).length := by
      rw [hlen]
      omega
    refine ⟨hb, ?_⟩
    rw [hget _ hb]
    rw [show (((ids.get ⟨i, hi⟩).toNat : Nat) : Int) = ids.get ⟨i, hi⟩ from by omega]
    obtain ⟨j, hj1, hj2, hj3⟩ := firstIdx_mem ids _ hmem
    rw [hj1]
    have hij : j = i := h j hj2 i hi (by rw [hj3]; exact hpos) (by rw [hj3])
    omega
  · intro j hj hpos
    rw [hget _ hj] at hpos ⊢
    obtain ⟨j', hj1, hj2, hj3⟩ := firstIdx_nonneg ids _ hpos
    rw [hj1]
    have hlt : ((j' : Int)).toNat < ids.length := by
      rw [Int.toNat_natCast]
      exact hj2
    refine ⟨hlt, ?_⟩
    have heq : ids.get ⟨((j' : Int)).toNat, hlt⟩ = ids.get ⟨j', hj2⟩ := by
      congr 1
    rw [heq]
    exact hj3

/-- Claim C6: at the linker stage of `VoronoiDelaunayToGraph.__init__` (the
`mesh.update` that computes `node_at_cell = reverse_one_to_one(cell_at_node)`),
`node_at_cell` and `cell_at_node` are mutual inverses on their shared domain,
provided the tessellation's `point_region` is one-to-one — which scipy
guarantees for distinct input points. -/
theorem c6_node_at_cell_inverse (tv : TriVor) (pl : Option (List (List Int)))
    (h : OneToOne tv.point_region) :
    MutualInverse (voronoiDelaunayToGraphLinked tv pl).cell_at_node
      (voronoiDelaunayToGraphLinked tv pl).node_at_cell :=
  mutualInverse_reverse tv.point_region h

/-- Witness for C6 at the concrete tessellation output `tv6`. -/
theorem c6_witness :
    MutualInverse (voronoiDelaunayToGraphLinked tv6 none).cell_at_node
      (voronoiDelaunayToGraphLinked tv6 none).node_at_cell :=
  c6_node_at_cell_inverse tv6 none (by decide)

end Landlab
